import Mathlib

/-
Verification development for the validator-output analyzer
(analyze_results.py).  The script reads a FHIR validator report, suppresses
issues listed in an allow-list YAML file, prints the surviving issues and
produces a pass/fail exit status.  All definitions below are a shallow
embedding of the Python source; effects (printing, sys.exit) are modelled
by an Except monad over an explicit error type, with the produced output
lines and the success flag returned as data.
-/

namespace AnalyzeResults

/-- Mirror of the issue_levels dict: severity name to rank, none when the
severity is not one of the four recognized values. -/
def issue_levels : String → Option Nat
  | "fatal" => some 0
  | "error" => some 1
  | "warning" => some 2
  | "information" => some 3
  | _ => none

/-- Mirror of the str.startswith test used in the matching loop, stated on
the character sequences of the two strings. -/
def strStartsWith (s p : String) : Bool :=
  p.data.isPrefixOf s.data

/-- One parsed issue as stored by Result.addIssue.  line and col are kept as
the strings read from the report (or the "?" sentinel), as in the source. -/
structure Issue where
  line : String
  col : String
  severity : String
  text : String
  expression : String
deriving Repr, DecidableEq

/-- One Result record: the checked file, the optional resource id parsed
from the resource file, and the surviving issues in report order. -/
structure Result where
  file_path : String
  id : Option String
  issues : List Issue
deriving Repr, DecidableEq

/-- A raw issue as extracted from an OperationOutcome element before the
defaulting logic runs: absent XML elements are modelled as none.  The
severity value attribute is required by the script (its absence would crash
before validation), so it is a plain string here. -/
structure RawIssue where
  text : Option String
  line : Option String
  col : Option String
  severity : String
  expression : Option String
deriving Repr, DecidableEq

/-- A raw OperationOutcome: the file name from the outcome-file extension,
the optional id parsed from the resource file itself, and the issues. -/
structure RawOutcome where
  file_name : String
  resource_id : Option String
  issues : List RawIssue
deriving Repr, DecidableEq

/-- One rule of the ignored-issues YAML file: the optional "message" prefix
and the optional "reason" justification, as loaded from the file. -/
structure KnownIssue where
  message : Option String
  reason : Option String
deriving Repr, DecidableEq

/-- The ignored-issues specification: an association list from resource id
(none models a YAML null key, matching a resource without id) to the
optional "ignored issues" sub-mapping from expression to rules.  The inner
Option models whether the "ignored issues" key is present for the resource. -/
abbrev IgnoredSpec := List (Option String × Option (List (String × List KnownIssue)))

/-- A rule at run time: the Python code adds a "processed" key to the rule
dict when a matching issue consumes it; here it is an explicit flag. -/
structure Entry where
  message : Option String
  reason : Option String
  processed : Bool
deriving Repr, DecidableEq

/-- Freshly loaded rules carry no "processed" key. -/
def KnownIssue.toEntry (k : KnownIssue) : Entry :=
  ⟨k.message, k.reason, false⟩

/-- The errors through which the script aborts.  argCountError and
configError come from parser.error (optparse prints usage and exits with
status 2); reasonMissing and staleSuppression are the two sys.exit(1)
diagnostics, carrying the resource id and expression they print;
unknownSeverity is the exception raised by Result.addIssue (an uncaught
Python exception terminates with status 1), carrying the severity value and
the file path named by its message. -/
inductive RunError where
  | argCountError
  | configError
  | reasonMissing (rid : Option String) (expression : String)
  | staleSuppression (rid : Option String) (expression : String)
  | unknownSeverity (severity : String) (filePath : String)
deriving Repr, DecidableEq

/-- Usage errors are the two raised through optparse parser.error. -/
def RunError.isUsage : RunError → Bool
  | .argCountError => true
  | .configError => true
  | _ => false

/-- Mirror of Result.addIssue: an unrecognized severity raises, otherwise
the issue is appended. -/
def Result.addIssue (r : Result) (line col severity text expression : String) :
    Except RunError Result :=
  if (issue_levels severity).isNone then
    .error (.unknownSeverity severity r.file_path)
  else
    .ok { r with issues := r.issues ++ [⟨line, col, severity, text, expression⟩] }

/-- Dict lookup for curr_ignored_issues (first binding of the key). -/
def lookupCurr : List (String × List Entry) → String → Option (List Entry)
  | [], _ => none
  | (k, es) :: rest, key => if k = key then some es else lookupCurr rest key

/-- In-place mutation of the entry list stored under a key, modelled as
replacing the first binding of the key. -/
def updateCurr : List (String × List Entry) → String → List Entry →
    List (String × List Entry)
  | [], _, _ => []
  | (k, es) :: rest, key, newEs =>
    if k = key then (k, newEs) :: rest else (k, es) :: updateCurr rest key newEs

/-- Lookup of the ignored_issues entry for a resource id (dict access). -/
def findSpec : IgnoredSpec → Option String → Option (Option (List (String × List KnownIssue)))
  | [], _ => none
  | (k, v) :: rest, rid => if k = rid then some v else findSpec rest rid

/-- Runtime state of the loaded ignored_issues structure.  In the source,
curr_ignored_issues aliases ignored_issues[result.id]["ignored issues"], so
the "processed" keys written by the matching loop persist in the shared
dict across outcome records with the same resource id.  The state is the
whole structure with the mutable flags made explicit. -/
abbrev SpecState := List (Option String × Option (List (String × List Entry)))

/-- Fresh runtime form of one "ignored issues" sub-mapping. -/
def mapRules (m : List (String × List KnownIssue)) : List (String × List Entry) :=
  m.map (fun p => (p.1, p.2.map KnownIssue.toEntry))

/-- The state right after yaml.safe_load: no rule has a "processed" key. -/
def initState (spec : IgnoredSpec) : SpecState :=
  spec.map (fun p => (p.1, p.2.map mapRules))

/-- Dict lookup of the per-resource value in the runtime state. -/
def findState : SpecState → Option String → Option (Option (List (String × List Entry)))
  | [], _ => none
  | (k, v) :: rest, rid => if k = rid then some v else findState rest rid

/-- Mirror of the curr_ignored_issues initialization: the "ignored issues"
sub-mapping for the resource id when present, the empty dict otherwise. -/
def lookupState (st : SpecState) (rid : Option String) :
    List (String × List Entry) :=
  match findState st rid with
  | some (some m) => m
  | _ => []

/-- Write-back of the per-resource sub-mapping after a record has been
processed, modelling that the source mutated it in place through the
alias.  Only a present "ignored issues" value is replaced: when the key was
absent, curr_ignored_issues was a fresh empty dict and nothing could have
been mutated. -/
def writeState : SpecState → Option String → List (String × List Entry) → SpecState
  | [], _, _ => []
  | (k, v) :: rest, rid, curr =>
    if k = rid then
      (k, match v with | some _ => some curr | none => none) :: rest
    else (k, v) :: writeState rest rid curr

/-- Does an entry textually match the issue text?  True exactly when the
rule has a "message" key whose value is a prefix of the text. -/
def Entry.matchesText (text : String) (e : Entry) : Bool :=
  match e.message with
  | some m => strStartsWith text m
  | none => false

/-- The effect of a successful pass of the matching loop on one entry. -/
def markEntry (text : String) (e : Entry) : Entry :=
  if e.matchesText text then { e with processed := true } else e

/-- Mirror of the inner matching loop over the rules registered for the
issue expression.  The Python loop has no break: every rule is visited, a
rule without a "message" key is skipped, a matching rule without a "reason"
key aborts via sys.exit(1), and every matching rule is marked processed.
Returns the issue_ignored flag together with the updated entry list. -/
def matchEntries (rid : Option String) (expression text : String) :
    List Entry → Except RunError (Bool × List Entry)
  | [] => .ok (false, [])
  | e :: rest =>
    match e.message with
    | none =>
      match matchEntries rid expression text rest with
      | .error err => .error err
      | .ok (b, rest2) => .ok (b, e :: rest2)
    | some m =>
      if strStartsWith text m then
        if e.reason.isNone then
          .error (.reasonMissing rid expression)
        else
          match matchEntries rid expression text rest with
          | .error err => .error err
          | .ok (_, rest2) => .ok (true, { e with processed := true } :: rest2)
      else
        match matchEntries rid expression text rest with
        | .error err => .error err
        | .ok (b, rest2) => .ok (b, e :: rest2)

/-- Defaulting of the details/text element: the try/except around the
attribute access yields the placeholder when the element is absent. -/
def extractText : Option String → String
  | some t => t
  | none => "_No description_"

/-- Defaulting of line and col: the source reads both inside a single
try/except, so if either element is absent the handler assigns the "?"
sentinel to both of them. -/
def extractLineCol : Option String → Option String → String × String
  | some l, some c => (l, c)
  | _, _ => ("?", "?")

/-- Defaulting of the expression element to the empty string. -/
def extractExpression : Option String → String
  | some e => e
  | none => ""

/-- Mirror of one iteration of the issue loop: extract the fields with
their defaults, decide suppression (the allow-list branch when the
expression is a key of curr_ignored_issues, otherwise the All-OK elif with
numIssues the total issue count of the outcome), and hand a surviving issue
to Result.addIssue, whose severity validation is inlined here.  Returns the
issue to append (none when suppressed) and the updated entry map. -/
def processIssue (rid : Option String) (filePath : String) (numIssues : Nat)
    (curr : List (String × List Entry)) (raw : RawIssue) :
    Except RunError (Option Issue × List (String × List Entry)) :=
  let text := extractText raw.text
  let lc := extractLineCol raw.line raw.col
  let severity := raw.severity
  let expression := extractExpression raw.expression
  match lookupCurr curr expression with
  | some entries =>
    match matchEntries rid expression text entries with
    | .error err => .error err
    | .ok (ignored, entries2) =>
      let curr2 := updateCurr curr expression entries2
      if ignored then .ok (none, curr2)
      else if (issue_levels severity).isNone then
        .error (.unknownSeverity severity filePath)
      else
        .ok (some ⟨lc.1, lc.2, severity, text, expression⟩, curr2)
  | none =>
    if severity = "information" ∧ text = "All OK" ∧ numIssues = 1 then
      .ok (none, curr)
    else if (issue_levels severity).isNone then
      .error (.unknownSeverity severity filePath)
    else
      .ok (some ⟨lc.1, lc.2, severity, text, expression⟩, curr)

/-- The issue loop of one outcome: thread the mutable entry map through the
issues, collecting the surviving issues in order. -/
def processIssues (rid : Option String) (filePath : String) (numIssues : Nat)
    (curr : List (String × List Entry)) :
    List RawIssue → Except RunError (List Issue × List (String × List Entry))
  | [] => .ok ([], curr)
  | raw :: rest =>
    match processIssue rid filePath numIssues curr raw with
    | .error err => .error err
    | .ok (added, curr2) =>
      match processIssues rid filePath numIssues curr2 rest with
      | .error err => .error err
      | .ok (issues, currF) =>
        .ok ((match added with | some i => i :: issues | none => issues), currF)

/-- Mirror of the post-resource check: walk the (possibly mutated) entry
map in insertion order and exit with the stale diagnostic at the first rule
that was never marked processed. -/
def sweep (rid : Option String) : List (String × List Entry) → Option RunError
  | [] => none
  | (expression, entries) :: rest =>
    match entries.find? (fun e => !e.processed) with
    | some _ => some (.staleSuppression rid expression)
    | none => sweep rid rest

/-- Processing of one OperationOutcome: read the current rules for its
resource id from the shared state, run the issue loop, run the stale-entry
check, and return the result together with the state carrying the
"processed" flags the record left behind (the source mutates the shared
dict in place, so these flags are visible to later records with the same
resource id). -/
def processOutcome (st : SpecState) (o : RawOutcome) :
    Except RunError (Result × SpecState) :=
  let curr := lookupState st o.resource_id
  match processIssues o.resource_id o.file_name o.issues.length curr o.issues with
  | .error err => .error err
  | .ok (issues, currF) =>
    match sweep o.resource_id currF with
    | some err => .error err
    | none =>
      .ok (⟨o.file_name, o.resource_id, issues⟩, writeState st o.resource_id currF)

/-- The outcome loop over the whole report, threading the mutable state of
the shared ignored_issues structure from record to record. -/
def processOutcomes (st : SpecState) :
    List RawOutcome → Except RunError (List Result × SpecState)
  | [] => .ok ([], st)
  | o :: rest =>
    match processOutcome st o with
    | .error err => .error err
    | .ok (r, st2) =>
      match processOutcomes st2 rest with
      | .error err => .error err
      | .ok (rs, st3) => .ok (r :: rs, st3)

/-- Severity rank of a stored issue (issue_levels dict access; every issue
stored by addIssue has a recognized severity, so the default is inert). -/
def levelOf (i : Issue) : Nat :=
  (issue_levels i.severity).getD 0

/-- The text block printed for one issue by Issue.print with the plain
Formatter, whose attribute lookups all yield the empty string. -/
def Issue.render (i : Issue) : String :=
  "  -  " ++ i.severity ++ " at " ++ i.expression ++ " (" ++ i.line ++ ", " ++
    i.col ++ "):\n     " ++ i.text

/-- The header line printed for a result that has surviving issues.  The
id suffix is guarded by the Python truthiness test `if result.id:`, which
also skips an empty-string id. -/
def resultHeader (r : Result) : String :=
  "== " ++ r.file_path ++
    (match r.id with
     | some i => if i = "" then "" else " (" ++ i ++ ")"
     | none => "")

/-- Mirror of the verdict loop: for each result with issues, print the
header, print each issue at or below the verbosity rank, flip the success
flag on each issue at or below the fail rank, and print a blank line.
Returns the printed lines and the final success flag. -/
def verdictLines (failLevel verbosity : Nat) (results : List Result) :
    List String × Bool :=
  results.foldl
    (fun acc r =>
      if r.issues.length > 0 then
        (acc.1 ++ [resultHeader r] ++
           (r.issues.filter (fun i => levelOf i ≤ verbosity)).map Issue.render ++
           [""],
         r.issues.foldl (fun s i => if levelOf i ≤ failLevel then false else s) acc.2)
      else acc)
    ([], true)

/-- The final line: the failure summary when the success flag is false,
otherwise the all-well line (plain Formatter, so no color codes). -/
def finalLines (success : Bool) : List String :=
  if success then ["All well"] else ["There were errors during validation"]

/-- The selectable levels of the fail-at and verbosity-level options
(optparse choice options; fatal is not selectable). -/
inductive CliLevel where
  | error
  | warning
  | information
deriving Repr, DecidableEq

/-- Rank of a selectable level in the issue_levels ordering. -/
def CliLevel.rank : CliLevel → Nat
  | .error => 1
  | .warning => 2
  | .information => 3

/-- The two threshold options after optparse choice validation. -/
structure Config where
  fail_at : CliLevel
  verbosity_level : CliLevel
deriving Repr, DecidableEq

/-- The whole script run without the colorize flag: argument-count check,
threshold cross-validation (both through parser.error, before any file is
read), then the outcome loop and the verdict loop.  nargs is the number of
positional arguments.  Returns the printed lines and the success flag, or
the error through which the script aborted. -/
def run (nargs : Nat) (cfg : Config) (spec : IgnoredSpec) (report : List RawOutcome) :
    Except RunError (List String × Bool) :=
  if nargs ≠ 1 then .error .argCountError
  else if cfg.verbosity_level.rank < cfg.fail_at.rank then .error .configError
  else
    match processOutcomes (initState spec) report with
    | .error err => .error err
    | .ok (results, _) =>
      let v := verdictLines cfg.fail_at.rank cfg.verbosity_level.rank results
      .ok (v.1 ++ finalLines v.2, v.2)

/-- The process exit status of a run: optparse parser.error exits with
status 2, sys.exit(1) and an uncaught exception exit with status 1, a false
success flag exits through sys.exit(1), and reaching the end of the script
exits with status 0. -/
def exitCode (r : Except RunError (List String × Bool)) : Nat :=
  match r with
  | .error .argCountError => 2
  | .error .configError => 2
  | .error _ => 1
  | .ok (_, true) => 0
  | .ok (_, false) => 1

/-- The ignored-issues file registers, under the given resource id, at
least one rule without a "message" key. -/
def loadsNoMsg (spec : IgnoredSpec) (rid : Option String) : Prop :=
  ∃ m, findSpec spec rid = some (some m) ∧
    ∃ p ∈ m, ∃ k ∈ p.2, k.message = (none : Option String)

/-- Some rule in the runtime entry map has no "message" key and is not
marked processed. -/
def HasStaleNoMsg (curr : List (String × List Entry)) : Prop :=
  ∃ p ∈ curr, ∃ e ∈ p.2, e.message = (none : Option String) ∧ e.processed = false

/-- The runtime state holds, under the given resource id, a rule without a
"message" key that has not been marked processed. -/
def stateLoadsNoMsg (st : SpecState) (rid : Option String) : Prop :=
  ∃ m, findState st rid = some (some m) ∧
    ∃ p ∈ m, ∃ e ∈ p.2, e.message = (none : Option String) ∧ e.processed = false

end AnalyzeResults

deriving instance DecidableEq for Except

namespace AnalyzeResults

theorem matchesText_none (t : String) (rsn : Option String) (proc : Bool) :
    Entry.matchesText t ⟨none, rsn, proc⟩ = false := rfl

theorem matchesText_some (t m : String) (rsn : Option String) (proc : Bool) :
    Entry.matchesText t ⟨some m, rsn, proc⟩ = strStartsWith t m := rfl

/-- When no entry both matches the text and lacks a reason, the matching
loop succeeds, reports whether any entry matched, and marks every matching
entry processed while leaving the others untouched. -/
theorem matchEntries_ok_of (rid : Option String) (x t : String)
    (es : List Entry)
    (h : ∀ e ∈ es, Entry.matchesText t e = true → e.reason.isNone = false) :
    matchEntries rid x t es =
      .ok (es.any (Entry.matchesText t), es.map (markEntry t)) := by
  induction es with
  | nil => rfl
  | cons e0 rest ih =>
    have htail : ∀ e ∈ rest, Entry.matchesText t e = true → e.reason.isNone = false :=
      fun e he hm => h e (List.mem_cons_of_mem _ he) hm
    obtain ⟨msg, rsn, proc⟩ := e0
    cases msg with
    | none =>
      show (match matchEntries rid x t rest with
            | .error err => Except.error err
            | .ok (b, rest2) =>
              Except.ok (b, (⟨none, rsn, proc⟩ : Entry) :: rest2)) = _
      rw [ih htail]
      simp [Entry.matchesText, markEntry]
    | some m =>
      cases hs : strStartsWith t m with
      | false =>
        show (if strStartsWith t m = true then
                if rsn.isNone = true then
                  Except.error (RunError.reasonMissing rid x)
                else
                  match matchEntries rid x t rest with
                  | .error err => Except.error err
                  | .ok (_, rest2) =>
                    Except.ok (true, (⟨some m, rsn, true⟩ : Entry) :: rest2)
              else
                match matchEntries rid x t rest with
                | .error err => Except.error err
                | .ok (b, rest2) =>
                  Except.ok (b, (⟨some m, rsn, proc⟩ : Entry) :: rest2)) = _
        rw [if_neg (by rw [hs]; exact Bool.false_ne_true)]
        rw [ih htail]
        simp [Entry.matchesText, markEntry, hs]
      | true =>
        have hr : rsn.isNone = false :=
          h ⟨some m, rsn, proc⟩ (List.mem_cons_self _ _)
            ((matchesText_some t m rsn proc).trans hs)
        show (if strStartsWith t m = true then
                if rsn.isNone = true then
                  Except.error (RunError.reasonMissing rid x)
                else
                  match matchEntries rid x t rest with
                  | .error err => Except.error err
                  | .ok (_, rest2) =>
                    Except.ok (true, (⟨some m, rsn, true⟩ : Entry) :: rest2)
              else
                match matchEntries rid x t rest with
                | .error err => Except.error err
                | .ok (b, rest2) =>
                  Except.ok (b, (⟨some m, rsn, proc⟩ : Entry) :: rest2)) = _
        rw [if_pos hs, if_neg (by rw [hr]; exact Bool.false_ne_true)]
        rw [ih htail]
        simp [Entry.matchesText, markEntry, hs]

/-- When some entry matches the text and lacks a reason, the matching loop
aborts with the reason-missing diagnostic for the resource id and
expression under scrutiny. -/
theorem matchEntries_err_of (rid : Option String) (x t : String)
    (es : List Entry)
    (h : ∃ e ∈ es, Entry.matchesText t e = true ∧ e.reason = none) :
    matchEntries rid x t es = .error (.reasonMissing rid x) := by
  induction es with
  | nil =>
    obtain ⟨e, he, _⟩ := h
    exact absurd he (List.not_mem_nil e)
  | cons e0 rest ih =>
    obtain ⟨msg, rsn, proc⟩ := e0
    cases msg with
    | none =>
      have htail : ∃ e ∈ rest, Entry.matchesText t e = true ∧ e.reason = none := by
        obtain ⟨e, he, hm, hre⟩ := h
        rcases List.mem_cons.mp he with rfl | hmem
        · exact absurd ((matchesText_none t rsn proc).symm.trans hm) Bool.false_ne_true
        · exact ⟨e, hmem, hm, hre⟩
      show (match matchEntries rid x t rest with
            | .error err => Except.error err
            | .ok (b, rest2) =>
              Except.ok (b, (⟨none, rsn, proc⟩ : Entry) :: rest2)) = _
      rw [ih htail]
    | some m =>
      cases hs : strStartsWith t m with
      | false =>
        have htail : ∃ e ∈ rest, Entry.matchesText t e = true ∧ e.reason = none := by
          obtain ⟨e, he, hm, hre⟩ := h
          rcases List.mem_cons.mp he with rfl | hmem
          · rw [matchesText_some, hs] at hm
            exact absurd hm Bool.false_ne_true
          · exact ⟨e, hmem, hm, hre⟩
        show (if strStartsWith t m = true then
                if rsn.isNone = true then
                  Except.error (RunError.reasonMissing rid x)
                else
                  match matchEntries rid x t rest with
                  | .error err => Except.error err
                  | .ok (_, rest2) =>
                    Except.ok (true, (⟨some m, rsn, true⟩ : Entry) :: rest2)
              else
                match matchEntries rid x t rest with
                | .error err => Except.error err
                | .ok (b, rest2) =>
                  Except.ok (b, (⟨some m, rsn, proc⟩ : Entry) :: rest2)) = _
        rw [if_neg (by rw [hs]; exact Bool.false_ne_true)]
        rw [ih htail]
      | true =>
        show (if strStartsWith t m = true then
                if rsn.isNone = true then
                  Except.error (RunError.reasonMissing rid x)
                else
                  match matchEntries rid x t rest with
                  | .error err => Except.error err
                  | .ok (_, rest2) =>
                    Except.ok (true, (⟨some m, rsn, true⟩ : Entry) :: rest2)
              else
                match matchEntries rid x t rest with
                | .error err => Except.error err
                | .ok (b, rest2) =>
                  Except.ok (b, (⟨some m, rsn, proc⟩ : Entry) :: rest2)) = _
        rw [if_pos hs]
        cases rsn with
        | none => exact if_pos rfl
        | some r =>
          have htail : ∃ e ∈ rest, Entry.matchesText t e = true ∧ e.reason = none := by
            obtain ⟨e, he, hm, hre⟩ := h
            rcases List.mem_cons.mp he with rfl | hmem
            · exact absurd hre (by simp)
            · exact ⟨e, hmem, hm, hre⟩
          rw [if_neg (show ¬((some r : Option String).isNone = true) by simp)]
          rw [ih htail]

/-- Any entry list splits into the two cases the matching loop
distinguishes. -/
theorem matchEntries_split (t : String) (es : List Entry) :
    (∃ e ∈ es, Entry.matchesText t e = true ∧ e.reason = none) ∨
      (∀ e ∈ es, Entry.matchesText t e = true → e.reason.isNone = false) := by
  by_cases h : ∃ e ∈ es, Entry.matchesText t e = true ∧ e.reason = none
  · exact Or.inl h
  · refine Or.inr fun e he hm => ?_
    push_neg at h
    have := h e he hm
    cases hre : e.reason with
    | none => exact absurd hre this
    | some r => rfl

/-- A matching-loop abort always carries the reason-missing diagnostic for
the resource id and expression of the lookup. -/
theorem matchEntries_err_shape (rid : Option String) (x t : String)
    (es : List Entry) (err : RunError)
    (h : matchEntries rid x t es = .error err) :
    err = .reasonMissing rid x := by
  rcases matchEntries_split t es with hc | hc
  · rw [matchEntries_err_of rid x t es hc] at h
    exact (Except.error.inj h).symm
  · rw [matchEntries_ok_of rid x t es hc] at h
    exact absurd h (by simp)

/-- On success the matching loop returns the any-match flag and the
pointwise-marked entry list. -/
theorem matchEntries_ok_eq (rid : Option String) (x t : String)
    (es : List Entry) (b : Bool) (es2 : List Entry)
    (h : matchEntries rid x t es = .ok (b, es2)) :
    b = es.any (Entry.matchesText t) ∧ es2 = es.map (markEntry t) := by
  rcases matchEntries_split t es with hc | hc
  · rw [matchEntries_err_of rid x t es hc] at h
    exact absurd h (by simp)
  · rw [matchEntries_ok_of rid x t es hc] at h
    have h2 := Except.ok.inj h
    exact ⟨(congrArg Prod.fst h2).symm, (congrArg Prod.snd h2).symm⟩

/-- The stale-entry check returns the stale diagnostic for its resource id
when it fires. -/
theorem sweep_some_shape (rid : Option String)
    (curr : List (String × List Entry)) (err : RunError)
    (h : sweep rid curr = some err) :
    ∃ x, err = .staleSuppression rid x := by
  induction curr with
  | nil => exact absurd h (by simp [sweep])
  | cons p rest ih =>
    obtain ⟨x, es⟩ := p
    have h2 : (match es.find? (fun e => !e.processed) with
               | some _ => some (RunError.staleSuppression rid x)
               | none => sweep rid rest) = some err := h
    cases hf : es.find? (fun e => !e.processed) with
    | some e0 =>
      rw [hf] at h2
      exact ⟨x, (Option.some.inj h2).symm⟩
    | none =>
      rw [hf] at h2
      exact ih h2

/-- The stale-entry check passes exactly when every loaded rule was marked
processed. -/
theorem sweep_eq_none_iff (rid : Option String)
    (curr : List (String × List Entry)) :
    sweep rid curr = none ↔ ∀ p ∈ curr, ∀ e ∈ p.2, e.processed = true := by
  induction curr with
  | nil => simp [sweep]
  | cons p rest ih =>
    obtain ⟨x, es⟩ := p
    show (match es.find? (fun e => !e.processed) with
          | some _ => some (RunError.staleSuppression rid x)
          | none => sweep rid rest) = none ↔ _
    cases hf : es.find? (fun e => !e.processed) with
    | some e0 =>
      have he0 : e0 ∈ es := List.mem_of_find?_eq_some hf
      have hp := List.find?_some hf
      constructor
      · intro hcontra
        exact absurd hcontra (by simp)
      · intro hall
        have := hall (x, es) (List.mem_cons_self _ _) e0 he0
        rw [this] at hp
        exact absurd hp (by simp)
    | none =>
      have hall : ∀ e ∈ es, e.processed = true := by
        intro e he
        have := List.find?_eq_none.mp hf e he
        simpa using this
      rw [ih]
      constructor
      · intro hrest p hp e he
        rcases List.mem_cons.mp hp with rfl | htl
        · exact hall e he
        · exact hrest p htl e he
      · intro hp p hpmem e he
        exact hp p (List.mem_cons_of_mem _ hpmem) e he

/-- Every error produced by one pass of the issue loop body is a
diagnostic, never a usage error. -/
theorem processIssue_err_not_usage (rid : Option String) (fp : String)
    (n : Nat) (curr : List (String × List Entry)) (raw : RawIssue)
    (err : RunError)
    (h : processIssue rid fp n curr raw = .error err) :
    err.isUsage = false := by
  cases hl : lookupCurr curr (extractExpression raw.expression) with
  | some entries =>
    cases hm : matchEntries rid (extractExpression raw.expression)
        (extractText raw.text) entries with
    | error e2 =>
      simp only [processIssue, hl, hm, Except.error.injEq] at h
      rw [← h, matchEntries_err_shape _ _ _ _ _ hm]
      rfl
    | ok pr =>
      obtain ⟨b, es2⟩ := pr
      simp only [processIssue, hl, hm] at h
      cases hb : b with
      | true => rw [if_pos hb] at h; exact absurd h (by simp)
      | false =>
        rw [if_neg (by rw [hb]; exact Bool.false_ne_true)] at h
        cases hsv : (issue_levels raw.severity).isNone with
        | true =>
          rw [if_pos hsv] at h
          rw [← Except.error.inj h]
          rfl
        | false =>
          rw [if_neg (by rw [hsv]; exact Bool.false_ne_true)] at h
          exact absurd h (by simp)
  | none =>
    simp only [processIssue, hl] at h
    by_cases hok : raw.severity = "information" ∧ extractText raw.text = "All OK" ∧ n = 1
    · rw [if_pos hok] at h
      exact absurd h (by simp)
    · rw [if_neg hok] at h
      cases hsv : (issue_levels raw.severity).isNone with
      | true =>
        rw [if_pos hsv] at h
        rw [← Except.error.inj h]
        rfl
      | false =>
        rw [if_neg (by rw [hsv]; exact Bool.false_ne_true)] at h
        exact absurd h (by simp)

/-- Every error produced by the issue loop is a diagnostic. -/
theorem processIssues_err_not_usage (rid : Option String) (fp : String)
    (n : Nat) (curr : List (String × List Entry)) (raws : List RawIssue)
    (err : RunError)
    (h : processIssues rid fp n curr raws = .error err) :
    err.isUsage = false := by
  induction raws generalizing curr with
  | nil => simp [processIssues] at h
  | cons raw rest ih =>
    cases hi : processIssue rid fp n curr raw with
    | error e2 =>
      simp only [processIssues, hi, Except.error.injEq] at h
      subst h
      exact processIssue_err_not_usage _ _ _ _ _ _ hi
    | ok pr =>
      obtain ⟨added, curr2⟩ := pr
      cases hr : processIssues rid fp n curr2 rest with
      | error e2 =>
        simp only [processIssues, hi, hr, Except.error.injEq] at h
        subst h
        exact ih curr2 hr
      | ok pr2 =>
        obtain ⟨is2, c2⟩ := pr2
        simp only [processIssues, hi, hr] at h
        exact absurd h (by simp)

/-- Every error produced by processing one outcome is a diagnostic. -/
theorem processOutcome_err_not_usage (st : SpecState) (o : RawOutcome)
    (err : RunError) (h : processOutcome st o = .error err) :
    err.isUsage = false := by
  cases hi : processIssues o.resource_id o.file_name o.issues.length
      (lookupState st o.resource_id) o.issues with
  | error e2 =>
    simp only [processOutcome, hi, Except.error.injEq] at h
    subst h
    exact processIssues_err_not_usage _ _ _ _ _ _ hi
  | ok pr =>
    obtain ⟨issues, currF⟩ := pr
    cases hs : sweep o.resource_id currF with
    | some e2 =>
      simp only [processOutcome, hi, hs, Except.error.injEq] at h
      obtain ⟨x, hx⟩ := sweep_some_shape _ _ _ hs
      subst h
      rw [hx]
      rfl
    | none =>
      simp only [processOutcome, hi, hs] at h
      exact absurd h (by simp)

/-- Every error produced by the outcome loop is a diagnostic, never one of
the two optparse usage errors. -/
theorem processOutcomes_err_not_usage (st : SpecState)
    (report : List RawOutcome) (err : RunError)
    (h : processOutcomes st report = .error err) :
    err.isUsage = false := by
  induction report generalizing st with
  | nil => simp [processOutcomes] at h
  | cons o rest ih =>
    cases ho : processOutcome st o with
    | error e2 =>
      simp only [processOutcomes, ho, Except.error.injEq] at h
      subst h
      exact processOutcome_err_not_usage _ _ _ ho
    | ok pr =>
      obtain ⟨r, st2⟩ := pr
      cases hr : processOutcomes st2 rest with
      | error e2 =>
        simp only [processOutcomes, ho, hr, Except.error.injEq] at h
        subst h
        exact ih st2 hr
      | ok pr2 =>
        obtain ⟨rs, st3⟩ := pr2
        simp only [processOutcomes, ho, hr] at h
        exact absurd h (by simp)

/-- A diagnostic error exits with status 1. -/
theorem exitCode_error_of_not_usage (err : RunError)
    (h : err.isUsage = false) :
    exitCode (Except.error err) = 1 := by
  cases err with
  | argCountError => exact absurd h (by simp [RunError.isUsage])
  | configError => exact absurd h (by simp [RunError.isUsage])
  | reasonMissing rid x => rfl
  | staleSuppression rid x => rfl
  | unknownSeverity s fp => rfl

/-- The issue loop splits over list append: the second half only runs when
the first half finished without aborting. -/
theorem processIssues_append (rid : Option String) (fp : String) (n : Nat)
    (curr : List (String × List Entry)) (xs ys : List RawIssue) :
    processIssues rid fp n curr (xs ++ ys) =
      (match processIssues rid fp n curr xs with
       | .error err => .error err
       | .ok (is1, c1) =>
         match processIssues rid fp n c1 ys with
         | .error err => .error err
         | .ok (is2, c2) => .ok (is1 ++ is2, c2)) := by
  induction xs generalizing curr with
  | nil =>
    simp only [List.nil_append, processIssues]
    cases h : processIssues rid fp n curr ys with
    | error err => rfl
    | ok pr => obtain ⟨is2, c2⟩ := pr; simp
  | cons x xs ih =>
    rw [List.cons_append]
    cases hi : processIssue rid fp n curr x with
    | error err => simp only [processIssues, hi]
    | ok pr =>
      obtain ⟨added, curr2⟩ := pr
      simp only [processIssues, hi, ih curr2]
      cases h1 : processIssues rid fp n curr2 xs with
      | error err => rfl
      | ok pr1 =>
        obtain ⟨is1, c1⟩ := pr1
        dsimp only
        cases h2 : processIssues rid fp n c1 ys with
        | error err => rfl
        | ok pr2 =>
          obtain ⟨is2, c2⟩ := pr2
          dsimp only
          cases added with
          | some i => simp
          | none => rfl

/-- The outcome loop splits over list append, threading the state of the
shared ignored_issues structure: the second half starts from the state the
first half left behind. -/
theorem processOutcomes_append (xs ys : List RawOutcome) (st : SpecState) :
    processOutcomes st (xs ++ ys) =
      (match processOutcomes st xs with
       | .error err => .error err
       | .ok (rs1, st1) =>
         match processOutcomes st1 ys with
         | .error err => .error err
         | .ok (rs2, st2) => .ok (rs1 ++ rs2, st2)) := by
  induction xs generalizing st with
  | nil =>
    simp only [List.nil_append, processOutcomes]
    cases h : processOutcomes st ys with
    | error err => rfl
    | ok pr => obtain ⟨rs2, st2⟩ := pr; simp
  | cons o xs ih =>
    rw [List.cons_append]
    cases ho : processOutcome st o with
    | error err => simp only [processOutcomes, ho]
    | ok pr =>
      obtain ⟨r, st2⟩ := pr
      simp only [processOutcomes, ho, ih st2]
      cases h1 : processOutcomes st2 xs with
      | error err => rfl
      | ok pr1 =>
        obtain ⟨rs1, st3⟩ := pr1
        dsimp only
        cases h2 : processOutcomes st3 ys with
        | error err => rfl
        | ok pr2 =>
          obtain ⟨rs2, st4⟩ := pr2
          simp

/-- The inner verdict fold over the issues of one result equals the
conjunction of the accumulator with the per-issue threshold checks. -/
theorem issues_foldl_eq (f : Nat) (b : Bool) (is : List Issue) :
    is.foldl (fun s i => if levelOf i ≤ f then false else s) b =
      (b && is.all (fun i => !(decide (levelOf i ≤ f)))) := by
  induction is generalizing b with
  | nil => simp
  | cons i is ih =>
    rw [List.foldl_cons, List.all_cons]
    by_cases h : levelOf i ≤ f
    · rw [if_pos h, ih]
      simp [h]
    · rw [if_neg h, ih]
      simp [h]

/-- The verdict fold with an arbitrary accumulator: the final success flag
is the accumulated flag conjoined with the per-result checks. -/
theorem verdict_foldl_snd (f v : Nat) (rs : List Result) :
    ∀ acc : List String × Bool,
      (rs.foldl
        (fun acc r =>
          if r.issues.length > 0 then
            (acc.1 ++ [resultHeader r] ++
               (r.issues.filter (fun i => levelOf i ≤ v)).map Issue.render ++
               [""],
             r.issues.foldl (fun s i => if levelOf i ≤ f then false else s) acc.2)
          else acc) acc).2 =
      (acc.2 &&
        rs.all (fun r => r.issues.all (fun i => !(decide (levelOf i ≤ f))))) := by
  induction rs with
  | nil => intro acc; simp
  | cons r rs ih =>
    intro acc
    rw [List.foldl_cons, List.all_cons]
    by_cases h : r.issues.length > 0
    · rw [if_pos h, ih]
      dsimp only
      rw [issues_foldl_eq, Bool.and_assoc]
    · rw [if_neg h, ih]
      have hnil : r.issues = [] := List.length_eq_zero.mp (Nat.eq_zero_of_not_pos h)
      rw [hnil]
      simp

/-- The success flag of the verdict loop: true exactly when no surviving
issue is at or below the fail rank. -/
theorem verdictLines_snd (f v : Nat) (rs : List Result) :
    (verdictLines f v rs).2 =
      rs.all (fun r => r.issues.all (fun i => !(decide (levelOf i ≤ f)))) := by
  unfold verdictLines
  rw [verdict_foldl_snd]
  simp

/-- When every result has zero surviving issues the verdict loop prints
nothing and keeps the success flag true. -/
theorem verdictLines_all_empty (f v : Nat) (rs : List Result)
    (h : ∀ r ∈ rs, r.issues = []) :
    verdictLines f v rs = ([], true) := by
  unfold verdictLines
  have : ∀ acc : List String × Bool,
      (rs.foldl
        (fun acc r =>
          if r.issues.length > 0 then
            (acc.1 ++ [resultHeader r] ++
               (r.issues.filter (fun i => levelOf i ≤ v)).map Issue.render ++
               [""],
             r.issues.foldl (fun s i => if levelOf i ≤ f then false else s) acc.2)
          else acc) acc) = acc := by
    induction rs with
    | nil => intro acc; rfl
    | cons r rs ih =>
      intro acc
      rw [List.foldl_cons]
      rw [if_neg (by rw [h r (List.mem_cons_self _ _)]; simp)]
      exact ih (fun r2 h2 => h r2 (List.mem_cons_of_mem _ h2)) acc
  exact this ([], true)

/-- A rule without a message key never matches any text and is never
touched by the marking pass. -/
theorem markEntry_noMsg (t : String) (e : Entry) (h : e.message = none) :
    Entry.matchesText t e = false ∧ markEntry t e = e := by
  obtain ⟨msg, rsn, proc⟩ := e
  have h2 : msg = none := h
  subst h2
  exact ⟨rfl, rfl⟩

/-- Replacing the looked-up entry list by its marked version preserves the
presence of an unprocessed message-less rule. -/
theorem updateCurr_pres (t : String) (curr : List (String × List Entry))
    (k : String) (es : List Entry)
    (hl : lookupCurr curr k = some es) (h : HasStaleNoMsg curr) :
    HasStaleNoMsg (updateCurr curr k (es.map (markEntry t))) := by
  induction curr with
  | nil =>
    obtain ⟨p, hp, _⟩ := h
    exact absurd hp (List.not_mem_nil p)
  | cons q rest ih =>
    obtain ⟨k0, es0⟩ := q
    by_cases hk : k0 = k
    · have hlook : (if k0 = k then some es0 else lookupCurr rest k) = some es := hl
      rw [if_pos hk] at hlook
      have hes : es = es0 := (Option.some.inj hlook).symm
      subst hes
      show HasStaleNoMsg
        (if k0 = k then (k0, es.map (markEntry t)) :: rest
         else (k0, es) :: updateCurr rest k (es.map (markEntry t)))
      rw [if_pos hk]
      obtain ⟨p, hp, e, he, hm, hproc⟩ := h
      rcases List.mem_cons.mp hp with rfl | hmem
      · refine ⟨(k0, es.map (markEntry t)), List.mem_cons_self _ _, e, ?_, hm, hproc⟩
        have := List.mem_map_of_mem (markEntry t) he
        rw [(markEntry_noMsg t e hm).2] at this
        exact this
      · exact ⟨p, List.mem_cons_of_mem _ hmem, e, he, hm, hproc⟩
    · have hlook : (if k0 = k then some es0 else lookupCurr rest k) = some es := hl
      rw [if_neg hk] at hlook
      show HasStaleNoMsg
        (if k0 = k then (k0, es.map (markEntry t)) :: rest
         else (k0, es0) :: updateCurr rest k (es.map (markEntry t)))
      rw [if_neg hk]
      obtain ⟨p, hp, e, he, hm, hproc⟩ := h
      rcases List.mem_cons.mp hp with rfl | hmem
      · exact ⟨(k0, es0), List.mem_cons_self _ _, e, he, hm, hproc⟩
      · obtain ⟨p2, hp2, e2, he2, hm2, hproc2⟩ := ih hlook ⟨p, hmem, e, he, hm, hproc⟩
        exact ⟨p2, List.mem_cons_of_mem _ hp2, e2, he2, hm2, hproc2⟩

/-- One pass of the issue loop body preserves the presence of an
unprocessed message-less rule. -/
theorem processIssue_pres (rid : Option String) (fp : String) (n : Nat)
    (curr : List (String × List Entry)) (raw : RawIssue)
    (out : Option Issue × List (String × List Entry))
    (h : HasStaleNoMsg curr)
    (hok : processIssue rid fp n curr raw = .ok out) :
    HasStaleNoMsg out.2 := by
  cases hl : lookupCurr curr (extractExpression raw.expression) with
  | none =>
    simp only [processIssue, hl] at hok
    by_cases hc : raw.severity = "information" ∧ extractText raw.text = "All OK" ∧ n = 1
    · rw [if_pos hc] at hok
      rw [← Except.ok.inj hok]
      exact h
    · rw [if_neg hc] at hok
      cases hsv : (issue_levels raw.severity).isNone with
      | true =>
        rw [if_pos hsv] at hok
        exact absurd hok (by simp)
      | false =>
        rw [if_neg (by rw [hsv]; exact Bool.false_ne_true)] at hok
        rw [← Except.ok.inj hok]
        exact h
  | some entries =>
    cases hm : matchEntries rid (extractExpression raw.expression)
        (extractText raw.text) entries with
    | error e2 =>
      simp only [processIssue, hl, hm] at hok
      exact absurd hok (by simp)
    | ok pr =>
      obtain ⟨b, es2⟩ := pr
      have hes2 : es2 = entries.map (markEntry (extractText raw.text)) :=
        (matchEntries_ok_eq _ _ _ _ _ _ hm).2
      have hpres := updateCurr_pres (extractText raw.text) curr
        (extractExpression raw.expression) entries hl h
      rw [← hes2] at hpres
      simp only [processIssue, hl, hm] at hok
      by_cases hb : b = true
      · rw [if_pos hb] at hok
        rw [← Except.ok.inj hok]
        exact hpres
      · rw [if_neg hb] at hok
        cases hsv : (issue_levels raw.severity).isNone with
        | true =>
          rw [if_pos hsv] at hok
          exact absurd hok (by simp)
        | false =>
          rw [if_neg (by rw [hsv]; exact Bool.false_ne_true)] at hok
          rw [← Except.ok.inj hok]
          exact hpres

/-- The issue loop preserves the presence of an unprocessed message-less
rule. -/
theorem processIssues_pres (rid : Option String) (fp : String) (n : Nat)
    (raws : List RawIssue) :
    ∀ (curr : List (String × List Entry))
      (out : List Issue × List (String × List Entry)),
      HasStaleNoMsg curr → processIssues rid fp n curr raws = .ok out →
      HasStaleNoMsg out.2 := by
  induction raws with
  | nil =>
    intro curr out h hok
    simp only [processIssues] at hok
    rw [← Except.ok.inj hok]
    exact h
  | cons raw rest ih =>
    intro curr out h hok
    cases hi : processIssue rid fp n curr raw with
    | error e2 =>
      simp only [processIssues, hi] at hok
      exact absurd hok (by simp)
    | ok pr =>
      obtain ⟨added, curr2⟩ := pr
      have h2 : HasStaleNoMsg curr2 :=
        processIssue_pres rid fp n curr raw (added, curr2) h hi
      cases hr : processIssues rid fp n curr2 rest with
      | error e2 =>
        simp only [processIssues, hi, hr] at hok
        exact absurd hok (by simp)
      | ok pr2 =>
        obtain ⟨is2, c2⟩ := pr2
        have h3 := ih curr2 (is2, c2) h2 hr
        simp only [processIssues, hi, hr] at hok
        rw [← Except.ok.inj hok]
        exact h3

/-- A resource whose loaded rules contain a message-less rule can never
finish its outcome processing successfully: the rule is never marked, so
the stale-entry check fires (unless an earlier diagnostic already did). -/
theorem processOutcome_not_ok (st : SpecState) (o : RawOutcome)
    (hload : stateLoadsNoMsg st o.resource_id) :
    ∀ out, processOutcome st o ≠ .ok out := by
  intro out hok
  have h0 : HasStaleNoMsg (lookupState st o.resource_id) := by
    obtain ⟨m, hf, p, hp, e, he, hmsg, hproc⟩ := hload
    have hl : lookupState st o.resource_id = m := by
      simp only [lookupState, hf]
    rw [hl]
    exact ⟨p, hp, e, he, hmsg, hproc⟩
  cases hi : processIssues o.resource_id o.file_name o.issues.length
      (lookupState st o.resource_id) o.issues with
  | error e2 =>
    simp only [processOutcome, hi] at hok
    exact absurd hok (by simp)
  | ok pr =>
    obtain ⟨issues, currF⟩ := pr
    have hF : HasStaleNoMsg currF :=
      processIssues_pres o.resource_id o.file_name o.issues.length o.issues
        (lookupState st o.resource_id) (issues, currF) h0 hi
    cases hs : sweep o.resource_id currF with
    | some e2 =>
      simp only [processOutcome, hi, hs] at hok
      exact absurd hok (by simp)
    | none =>
      have hall := (sweep_eq_none_iff o.resource_id currF).mp hs
      obtain ⟨p, hp, e, he, hm, hproc⟩ := hF
      have htrue := hall p hp e he
      rw [htrue] at hproc
      exact Bool.noConfusion hproc

/-- The initial state lookup agrees with the raw-spec lookup, with all
rules in their fresh runtime form. -/
theorem findState_initState (spec : IgnoredSpec) (rid : Option String) :
    findState (initState spec) rid =
      (findSpec spec rid).map (fun v => v.map mapRules) := by
  induction spec with
  | nil => rfl
  | cons p rest ih =>
    obtain ⟨k, v⟩ := p
    show (if k = rid then some (v.map mapRules)
          else findState (initState rest) rid) =
        ((if k = rid then some v else findSpec rest rid).map
          (fun v => v.map mapRules))
    by_cases hk : k = rid
    · rw [if_pos hk, if_pos hk]
      rfl
    · rw [if_neg hk, if_neg hk]
      exact ih

/-- A message-less rule in the loaded file is a message-less unprocessed
rule in the fresh runtime state. -/
theorem initState_loadsNoMsg (spec : IgnoredSpec) (rid : Option String)
    (h : loadsNoMsg spec rid) : stateLoadsNoMsg (initState spec) rid := by
  obtain ⟨m, hf, p, hp, k, hk, hmsg⟩ := h
  refine ⟨mapRules m, ?_, (p.1, p.2.map KnownIssue.toEntry), ?_, k.toEntry,
    ?_, hmsg, rfl⟩
  · rw [findState_initState, hf]
    rfl
  · exact List.mem_map_of_mem _ hp
  · exact List.mem_map_of_mem _ hk

/-- Writing the sub-mapping of one resource id back into the state leaves
lookups of every other resource id unchanged. -/
theorem findState_writeState_ne (st : SpecState) (rid1 rid2 : Option String)
    (curr : List (String × List Entry)) (hne : rid1 ≠ rid2) :
    findState (writeState st rid2 curr) rid1 = findState st rid1 := by
  induction st with
  | nil => rfl
  | cons p rest ih =>
    obtain ⟨k, v⟩ := p
    show findState
        (if k = rid2 then
          (k, match v with | some _ => some curr | none => none) :: rest
         else (k, v) :: writeState rest rid2 curr) rid1 = _
    by_cases hk : k = rid2
    · rw [if_pos hk]
      show (if k = rid1 then
              some (match v with | some _ => some curr | none => none)
            else findState rest rid1) =
          (if k = rid1 then some v else findState rest rid1)
      rw [if_neg (fun hc => hne (hc.symm.trans hk)),
        if_neg (fun hc => hne (hc.symm.trans hk))]
    · rw [if_neg hk]
      show (if k = rid1 then some v
            else findState (writeState rest rid2 curr) rid1) =
          (if k = rid1 then some v else findState rest rid1)
      by_cases hk1 : k = rid1
      · rw [if_pos hk1, if_pos hk1]
      · rw [if_neg hk1, if_neg hk1]
        exact ih

/-- An unprocessed message-less rule at one resource id survives the state
write-back of a record for a different resource id. -/
theorem stateLoadsNoMsg_write (st : SpecState) (rid rid2 : Option String)
    (curr : List (String × List Entry)) (hne : rid ≠ rid2)
    (h : stateLoadsNoMsg st rid) :
    stateLoadsNoMsg (writeState st rid2 curr) rid := by
  obtain ⟨m, hf, hrest⟩ := h
  exact ⟨m, by rw [findState_writeState_ne st rid rid2 curr hne]; exact hf,
    hrest⟩

/-- A successful record leaves behind the input state with only its own
resource id written back. -/
theorem processOutcome_ok_state (st : SpecState) (o : RawOutcome)
    (out : Result × SpecState) (h : processOutcome st o = .ok out) :
    ∃ currF, out.2 = writeState st o.resource_id currF := by
  cases hi : processIssues o.resource_id o.file_name o.issues.length
      (lookupState st o.resource_id) o.issues with
  | error e2 =>
    simp only [processOutcome, hi] at h
    exact absurd h (by simp)
  | ok pr =>
    obtain ⟨issues, currF⟩ := pr
    cases hs : sweep o.resource_id currF with
    | some e2 =>
      simp only [processOutcome, hi, hs] at h
      exact absurd h (by simp)
    | none =>
      simp only [processOutcome, hi, hs] at h
      refine ⟨currF, ?_⟩
      rw [← Except.ok.inj h]

/-- A successful outcome loop from a state carrying an unprocessed
message-less rule for a resource id means no outcome of the report used
that resource id: the record that did would have failed its sweep. -/
theorem processOutcomes_ok_not_rid (rid : Option String)
    (os : List RawOutcome) :
    ∀ (st : SpecState) (out : List Result × SpecState),
      stateLoadsNoMsg st rid → processOutcomes st os = .ok out →
      ∀ o ∈ os, o.resource_id ≠ rid := by
  induction os with
  | nil =>
    intro st out hload h o ho
    exact absurd ho (List.not_mem_nil o)
  | cons o2 rest ih =>
    intro st out hload h
    cases ho2 : processOutcome st o2 with
    | error e2 =>
      simp only [processOutcomes, ho2] at h
      exact absurd h (by simp)
    | ok pr =>
      obtain ⟨r2, st2⟩ := pr
      have hne2 : o2.resource_id ≠ rid := by
        intro heq
        exact processOutcome_not_ok st o2 (heq ▸ hload) (r2, st2) ho2
      have hst2 : stateLoadsNoMsg st2 rid := by
        obtain ⟨currF, hshape⟩ := processOutcome_ok_state st o2 (r2, st2) ho2
        have hst2eq : st2 = writeState st o2.resource_id currF := hshape
        rw [hst2eq]
        exact stateLoadsNoMsg_write st rid o2.resource_id currF
          (fun hc => hne2 hc.symm) hload
      cases hr : processOutcomes st2 rest with
      | error e2 =>
        simp only [processOutcomes, ho2, hr] at h
        exact absurd h (by simp)
      | ok pr2 =>
        intro o ho
        rcases List.mem_cons.mp ho with rfl | hmem
        · exact hne2
        · exact ih st2 pr2 hst2 hr o hmem

/-- With one positional argument and a compatible threshold pair, the run
is exactly the outcome loop followed by the verdict loop. -/
theorem run_unfold (cfg : Config) (spec : IgnoredSpec)
    (report : List RawOutcome)
    (hcfg : cfg.fail_at.rank ≤ cfg.verbosity_level.rank) :
    run 1 cfg spec report =
      (match processOutcomes (initState spec) report with
       | .error err => .error err
       | .ok (results, _) =>
         let v := verdictLines cfg.fail_at.rank cfg.verbosity_level.rank results
         .ok (v.1 ++ finalLines v.2, v.2)) := by
  unfold run
  rw [if_neg (by simp)]
  rw [if_neg (Nat.not_lt.mpr hcfg)]

/-- C1: when the outcome loop succeeds and the thresholds are compatible,
the success flag is false exactly when some surviving issue has severity
rank at or below the fail rank; a report whose results all carry zero
surviving issues (including the zero-outcome report) yields the single
output line "All well" and exit status 0; a false flag yields the failure
summary line as the last output line and exit status 1. -/
theorem c1_success_iff_no_failing_issue (cfg : Config) (spec : IgnoredSpec)
    (report : List RawOutcome) (results : List Result) (stF : SpecState)
    (hcfg : cfg.fail_at.rank ≤ cfg.verbosity_level.rank)
    (hp : processOutcomes (initState spec) report = .ok (results, stF)) :
    ((verdictLines cfg.fail_at.rank cfg.verbosity_level.rank results).2 = false ↔
      ∃ r ∈ results, ∃ i ∈ r.issues, levelOf i ≤ cfg.fail_at.rank) ∧
    (run 1 cfg spec report =
      .ok ((verdictLines cfg.fail_at.rank cfg.verbosity_level.rank results).1 ++
            finalLines
              (verdictLines cfg.fail_at.rank cfg.verbosity_level.rank results).2,
           (verdictLines cfg.fail_at.rank cfg.verbosity_level.rank results).2)) ∧
    ((∀ r ∈ results, r.issues = []) →
      run 1 cfg spec report = .ok (["All well"], true) ∧
      exitCode (run 1 cfg spec report) = 0) ∧
    ((verdictLines cfg.fail_at.rank cfg.verbosity_level.rank results).2 = false →
      run 1 cfg spec report =
        .ok ((verdictLines cfg.fail_at.rank cfg.verbosity_level.rank results).1 ++
              ["There were errors during validation"], false) ∧
      exitCode (run 1 cfg spec report) = 1) := by
  have hrun2 : run 1 cfg spec report =
      .ok ((verdictLines cfg.fail_at.rank cfg.verbosity_level.rank results).1 ++
            finalLines
              (verdictLines cfg.fail_at.rank cfg.verbosity_level.rank results).2,
           (verdictLines cfg.fail_at.rank cfg.verbosity_level.rank results).2) := by
    rw [run_unfold cfg spec report hcfg, hp]
  have hiff : ((verdictLines cfg.fail_at.rank cfg.verbosity_level.rank results).2 = true ↔
      ∀ r ∈ results, ∀ i ∈ r.issues, ¬(levelOf i ≤ cfg.fail_at.rank)) := by
    rw [verdictLines_snd]
    simp [List.all_eq_true]
  refine ⟨?_, hrun2, ?_, ?_⟩
  · constructor
    · intro hfalse
      by_contra hn
      push_neg at hn
      have htrue := hiff.mpr (fun r hr i hi => Nat.not_le.mpr (hn r hr i hi))
      rw [htrue] at hfalse
      exact Bool.noConfusion hfalse
    · rintro ⟨r, hr, i, hi, hle⟩
      cases hX : (verdictLines cfg.fail_at.rank cfg.verbosity_level.rank results).2 with
      | false => rfl
      | true => exact absurd hle ((hiff.mp hX) r hr i hi)
  · intro hall
    have hv := verdictLines_all_empty cfg.fail_at.rank cfg.verbosity_level.rank
      results hall
    constructor
    · rw [hrun2, hv]
      rfl
    · rw [hrun2, hv]
      rfl
  · intro hfalse
    constructor
    · rw [hrun2, hfalse]
      rfl
    · rw [hrun2, hfalse]
      rfl

theorem c1_success_iff_no_failing_issue_witness :
    run 1 ⟨CliLevel.error, CliLevel.information⟩ [] [] = .ok (["All well"], true) ∧
    exitCode (run 1 ⟨CliLevel.error, CliLevel.information⟩ [] []) = 0 :=
  (c1_success_iff_no_failing_issue ⟨CliLevel.error, CliLevel.information⟩ [] [] []
    (initState []) (by decide) rfl).2.2.1 (by simp)

/-- C2 counterexample: the first resource ends its sweep with a stale entry
at A/e1, and the run aborts right there: the second outcome is never
scanned, although it holds an issue with an unrecognized severity (which
would abort with a different diagnostic if it were scanned) and a second
stale entry at B/e2 that is never reported.  Under the claim the run would
abort only after all resources were scanned and every stale entry would be
reported. -/
theorem c2_counterexample :
    run 1 ⟨CliLevel.error, CliLevel.information⟩
      [(some "A", some [("e1", [⟨some "M", some "r"⟩])]),
       (some "B", some [("e2", [⟨some "N", some "r"⟩])])]
      [⟨"f1", some "A", []⟩,
       ⟨"f2", some "B", [⟨none, none, none, "bogus", none⟩]⟩] =
      .error (.staleSuppression (some "A") "e1") := by decide

/-- C2 (amended): when the post-issue sweep of a resource finds an
unconsumed entry, the run aborts immediately with that stale diagnostic and
exit status 1; the outcomes after that resource are never scanned and no
further stale entry is reported. -/
theorem c2_stale_aborts_immediately (cfg : Config) (spec : IgnoredSpec)
    (pre : List RawOutcome) (o : RawOutcome) (rest : List RawOutcome)
    (rs : List Result) (st1 : SpecState) (acc : List Issue)
    (curr2 : List (String × List Entry)) (err : RunError)
    (hcfg : cfg.fail_at.rank ≤ cfg.verbosity_level.rank)
    (hpre : processOutcomes (initState spec) pre = .ok (rs, st1))
    (hip : processIssues o.resource_id o.file_name o.issues.length
            (lookupState st1 o.resource_id) o.issues = .ok (acc, curr2))
    (hsw : sweep o.resource_id curr2 = some err) :
    run 1 cfg spec (pre ++ o :: rest) = .error err ∧
    exitCode (run 1 cfg spec (pre ++ o :: rest)) = 1 ∧
    ∃ x, err = .staleSuppression o.resource_id x := by
  have ho : processOutcome st1 o = .error err := by
    simp only [processOutcome, hip, hsw]
  have hall : processOutcomes (initState spec) (pre ++ o :: rest) = .error err := by
    rw [processOutcomes_append, hpre]
    dsimp only
    simp only [processOutcomes, ho]
  have hrun : run 1 cfg spec (pre ++ o :: rest) = .error err := by
    rw [run_unfold _ _ _ hcfg, hall]
  refine ⟨hrun, ?_, sweep_some_shape _ _ _ hsw⟩
  rw [hrun]
  refine exitCode_error_of_not_usage err ?_
  obtain ⟨x, hx⟩ := sweep_some_shape _ _ _ hsw
  rw [hx]
  rfl

theorem c2_stale_aborts_immediately_witness :
    run 1 ⟨CliLevel.error, CliLevel.information⟩
      [(some "A", some [("e1", [⟨some "M", some "r"⟩])])]
      [⟨"f", some "A", []⟩, ⟨"g", none, []⟩] =
      .error (.staleSuppression (some "A") "e1") :=
  (c2_stale_aborts_immediately ⟨CliLevel.error, CliLevel.information⟩
    [(some "A", some [("e1", [⟨some "M", some "r"⟩])])]
    [] ⟨"f", some "A", []⟩ [⟨"g", none, []⟩] []
    (initState [(some "A", some [("e1", [⟨some "M", some "r"⟩])])]) []
    [("e1", [⟨some "M", some "r", false⟩])]
    (.staleSuppression (some "A") "e1")
    (by decide) rfl rfl rfl).1

/-- C3 counterexample: two entries share the matching prefix; the loop
marks both processed, while the claim says only the first is marked and
evaluation stops after it. -/
theorem c3_counterexample :
    matchEntries (some "A") "x" "ABC"
      [⟨some "A", some "r1", false⟩, ⟨some "A", some "r2", false⟩] =
      .ok (true, [⟨some "A", some "r1", true⟩, ⟨some "A", some "r2", true⟩]) := by
  decide

/-- C3 (amended): the matching loop has no break: every entry whose message
is a prefix of the issue text is marked consumed (non-matching entries are
left unchanged), and a matching entry without a reason aborts the run even
when an earlier entry already matched. -/
theorem c3_marks_every_matching_entry (rid : Option String) (x t : String)
    (es : List Entry) :
    ((∀ e ∈ es, Entry.matchesText t e = true → e.reason.isNone = false) →
      matchEntries rid x t es =
        .ok (es.any (Entry.matchesText t), es.map (markEntry t))) ∧
    ((∃ e ∈ es, Entry.matchesText t e = true ∧ e.reason = none) →
      matchEntries rid x t es = .error (.reasonMissing rid x)) :=
  ⟨matchEntries_ok_of rid x t es, matchEntries_err_of rid x t es⟩

theorem c3_marks_every_matching_entry_witness :
    matchEntries (some "A") "x" "ABC"
      [⟨some "A", some "r1", false⟩, ⟨some "B", some "r2", false⟩] =
      .ok (true, [⟨some "A", some "r1", true⟩, ⟨some "B", some "r2", false⟩]) :=
  (c3_marks_every_matching_entry (some "A") "x" "ABC"
    [⟨some "A", some "r1", false⟩, ⟨some "B", some "r2", false⟩]).1 (by decide)

/-- C4 counterexample: the single All-OK informational issue sits at an
expression that has an allow-list entry whose message is a prefix of
"All OK".  Matching is attempted first and consumes the entry (the run ends
successfully, so the sweep saw the entry processed), while the claim says
the issue is excluded before any matching and can never consume an
entry (which would leave the entry stale and abort the run). -/
theorem c4_counterexample :
    run 1 ⟨CliLevel.error, CliLevel.information⟩
      [(some "A", some [("e", [⟨some "All", some "accepted"⟩])])]
      [⟨"f", some "A", [⟨some "All OK", none, none, "information", some "e"⟩]⟩] =
      .ok (["All well"], true) := by decide

/-- C4 (amended): the All-OK exclusion applies only when the issue
expression has no allow-list entries: in that case exactly the shape of one
single issue with information severity and text "All OK" is excluded, and
every other shape goes through severity validation and is stored. -/
theorem c4_allok_only_without_entries (rid : Option String) (fp : String)
    (n : Nat) (curr : List (String × List Entry)) (raw : RawIssue)
    (hnone : lookupCurr curr (extractExpression raw.expression) = none) :
    ((raw.severity = "information" ∧ extractText raw.text = "All OK" ∧ n = 1) →
      processIssue rid fp n curr raw = .ok (none, curr)) ∧
    (¬(raw.severity = "information" ∧ extractText raw.text = "All OK" ∧ n = 1) →
      processIssue rid fp n curr raw =
        if (issue_levels raw.severity).isNone then
          .error (.unknownSeverity raw.severity fp)
        else
          .ok (some ⟨(extractLineCol raw.line raw.col).1,
                     (extractLineCol raw.line raw.col).2,
                     raw.severity, extractText raw.text,
                     extractExpression raw.expression⟩, curr)) := by
  constructor
  · intro hc
    simp only [processIssue, hnone]
    rw [if_pos hc]
  · intro hc
    simp only [processIssue, hnone]
    rw [if_neg hc]

theorem c4_allok_only_without_entries_witness :
    processIssue (some "A") "f" 1 []
      ⟨some "All OK", none, none, "information", none⟩ = .ok (none, []) :=
  (c4_allok_only_without_entries (some "A") "f" 1 []
    ⟨some "All OK", none, none, "information", none⟩ rfl).1 ⟨rfl, rfl, rfl⟩

/-- C5 counterexample: an issue with the unrecognized severity "bogus" is
suppressed by a matching allow-list entry, and the run finishes with
success instead of raising the unknown-severity error: severity validation
lives in Result.addIssue, which is reached only by surviving issues. -/
theorem c5_counterexample :
    run 1 ⟨CliLevel.error, CliLevel.information⟩
      [(some "A", some [("e", [⟨some "Known", some "accepted"⟩])])]
      [⟨"f", some "A", [⟨some "Known issue text", none, none, "bogus", some "e"⟩]⟩] =
      .ok (["All well"], true) := by decide

/-- C5 (amended): the unknown-severity error fires exactly for surviving
issues: an issue that survives (no entries for its expression, or a
non-matching entry list) with an unrecognized severity aborts with the
error naming the file path, while any successfully processed issue with an
unrecognized severity was necessarily suppressed. -/
theorem c5_severity_checked_only_for_survivors (rid : Option String)
    (fp : String) (n : Nat) (curr : List (String × List Entry))
    (raw : RawIssue) (hsev : issue_levels raw.severity = none) :
    (∀ out, processIssue rid fp n curr raw = .ok out → out.1 = none) ∧
    (lookupCurr curr (extractExpression raw.expression) = none →
      processIssue rid fp n curr raw = .error (.unknownSeverity raw.severity fp)) ∧
    (∀ entries es2,
      lookupCurr curr (extractExpression raw.expression) = some entries →
      matchEntries rid (extractExpression raw.expression) (extractText raw.text)
        entries = .ok (false, es2) →
      processIssue rid fp n curr raw = .error (.unknownSeverity raw.severity fp)) := by
  have hinfo : raw.severity ≠ "information" := by
    intro hcontra
    have hlv : issue_levels "information" = some 3 := rfl
    rw [hcontra, hlv] at hsev
    exact Option.noConfusion hsev
  have hsvIsNone : (issue_levels raw.severity).isNone = true := by
    rw [hsev]
    rfl
  refine ⟨?_, ?_, ?_⟩
  · intro out hok
    cases hl : lookupCurr curr (extractExpression raw.expression) with
    | none =>
      simp only [processIssue, hl] at hok
      rw [if_neg (fun hc => hinfo hc.1)] at hok
      rw [if_pos hsvIsNone] at hok
      exact absurd hok (by simp)
    | some entries =>
      cases hm : matchEntries rid (extractExpression raw.expression)
          (extractText raw.text) entries with
      | error e2 =>
        simp only [processIssue, hl, hm] at hok
        exact absurd hok (by simp)
      | ok pr =>
        obtain ⟨b, es2⟩ := pr
        simp only [processIssue, hl, hm] at hok
        cases hb : b with
        | true =>
          rw [if_pos hb] at hok
          rw [← Except.ok.inj hok]
        | false =>
          rw [if_neg (by rw [hb]; exact Bool.false_ne_true)] at hok
          rw [if_pos hsvIsNone] at hok
          exact absurd hok (by simp)
  · intro hl
    simp only [processIssue, hl]
    rw [if_neg (fun hc => hinfo hc.1), if_pos hsvIsNone]
  · intro entries es2 hl hm
    simp only [processIssue, hl, hm]
    rw [if_neg Bool.false_ne_true, if_pos hsvIsNone]

theorem c5_severity_checked_only_for_survivors_witness :
    processIssue (some "A") "f" 1 [] ⟨some "t", none, none, "bogus", none⟩ =
      .error (.unknownSeverity "bogus" "f") :=
  (c5_severity_checked_only_for_survivors (some "A") "f" 1 []
    ⟨some "t", none, none, "bogus", none⟩ rfl).2.1 rfl

/-- C6: when an issue of an outcome reaches a matching entry that lacks a
reason, the run aborts right at match time with the reason-missing
diagnostic naming the resource id and expression, with exit status 1,
regardless of the remaining issues and the remaining outcomes of the
report; conversely the matcher never produces this diagnostic from an entry
list in which no matching entry lacks a reason. -/
theorem c6_missing_reason_aborts_at_match (cfg : Config) (spec : IgnoredSpec)
    (pre : List RawOutcome) (o : RawOutcome) (rest : List RawOutcome)
    (ipre : List RawIssue) (raw : RawIssue) (irest : List RawIssue)
    (rs : List Result) (st1 : SpecState) (acc : List Issue)
    (curr1 : List (String × List Entry)) (entries : List Entry)
    (hcfg : cfg.fail_at.rank ≤ cfg.verbosity_level.rank)
    (hpre : processOutcomes (initState spec) pre = .ok (rs, st1))
    (hiss : o.issues = ipre ++ raw :: irest)
    (hip : processIssues o.resource_id o.file_name o.issues.length
            (lookupState st1 o.resource_id) ipre = .ok (acc, curr1))
    (hlk : lookupCurr curr1 (extractExpression raw.expression) = some entries)
    (hex : ∃ e ∈ entries, Entry.matchesText (extractText raw.text) e = true ∧
            e.reason = none) :
    run 1 cfg spec (pre ++ o :: rest) =
      .error (.reasonMissing o.resource_id (extractExpression raw.expression)) ∧
    exitCode (run 1 cfg spec (pre ++ o :: rest)) = 1 ∧
    (∀ (rid2 : Option String) (x2 t2 : String) (es2 : List Entry),
      (∀ e ∈ es2, Entry.matchesText t2 e = true → e.reason.isNone = false) →
      matchEntries rid2 x2 t2 es2 ≠ .error (.reasonMissing rid2 x2)) := by
  have hm : matchEntries o.resource_id (extractExpression raw.expression)
      (extractText raw.text) entries =
      .error (.reasonMissing o.resource_id (extractExpression raw.expression)) :=
    matchEntries_err_of _ _ _ _ hex
  have hpis : processIssues o.resource_id o.file_name o.issues.length
      (lookupState st1 o.resource_id) o.issues =
      .error (.reasonMissing o.resource_id (extractExpression raw.expression)) := by
    have hpi : processIssue o.resource_id o.file_name o.issues.length curr1 raw =
        .error (.reasonMissing o.resource_id (extractExpression raw.expression)) := by
      simp only [processIssue, hlk, hm]
    rw [hiss] at hip hpi ⊢
    rw [processIssues_append, hip]
    dsimp only
    simp only [processIssues, hpi]
  have ho : processOutcome st1 o =
      .error (.reasonMissing o.resource_id (extractExpression raw.expression)) := by
    simp only [processOutcome, hpis]
  have hall : processOutcomes (initState spec) (pre ++ o :: rest) =
      .error (.reasonMissing o.resource_id (extractExpression raw.expression)) := by
    rw [processOutcomes_append, hpre]
    dsimp only
    simp only [processOutcomes, ho]
  have hrun : run 1 cfg spec (pre ++ o :: rest) =
      .error (.reasonMissing o.resource_id (extractExpression raw.expression)) := by
    rw [run_unfold _ _ _ hcfg, hall]
  refine ⟨hrun, ?_, ?_⟩
  · rw [hrun]
    rfl
  · intro rid2 x2 t2 es2 hno hcontra
    rw [matchEntries_ok_of rid2 x2 t2 es2 hno] at hcontra
    exact absurd hcontra (by simp)

theorem c6_missing_reason_aborts_at_match_witness :
    run 1 ⟨CliLevel.error, CliLevel.information⟩
      [(some "A", some [("e", [⟨some "P", none⟩])])]
      [⟨"f", some "A", [⟨some "P text", none, none, "error", some "e"⟩]⟩,
       ⟨"g", none, [⟨none, none, none, "bogus", none⟩]⟩] =
      .error (.reasonMissing (some "A") "e") :=
  (c6_missing_reason_aborts_at_match ⟨CliLevel.error, CliLevel.information⟩
    [(some "A", some [("e", [⟨some "P", none⟩])])]
    [] ⟨"f", some "A", [⟨some "P text", none, none, "error", some "e"⟩]⟩
    [⟨"g", none, [⟨none, none, none, "bogus", none⟩]⟩]
    [] ⟨some "P text", none, none, "error", some "e"⟩ [] []
    (initState [(some "A", some [("e", [⟨some "P", none⟩])])]) []
    [("e", [⟨some "P", none, false⟩])] [⟨some "P", none, false⟩]
    (by decide) rfl rfl rfl rfl (by decide)).1

/-- C7 counterexample: an issue with a known line but an absent col ends
with both line and col set to the "?" sentinel, because the source reads
both elements inside one try/except; and the placeholder for an absent text
is the literal string of the source, not the one quoted by the claim. -/
theorem c7_counterexample :
    extractLineCol (some "10") none = ("?", "?") ∧
    extractText none = "_No description_" ∧
    "_No description_" ≠ "no description available" := by decide

/-- C7 (amended): text defaults to the placeholder string of the source
when absent and expression defaults to the empty string; line and col are
extracted jointly: both values are kept only when both elements are
present, otherwise both become the "?" sentinel; none of these extractions
can fail. -/
theorem c7_field_defaults :
    (extractText none = "_No description_") ∧
    (∀ t, extractText (some t) = t) ∧
    (∀ l c, extractLineCol (some l) (some c) = (l, c)) ∧
    (∀ l, extractLineCol (some l) none = ("?", "?")) ∧
    (∀ c, extractLineCol none (some c) = ("?", "?")) ∧
    (extractLineCol none none = ("?", "?")) ∧
    (extractExpression none = "") ∧
    (∀ e, extractExpression (some e) = e) :=
  ⟨rfl, fun _ => rfl, fun _ _ => rfl, fun _ => rfl, fun _ => rfl, rfl, rfl,
   fun _ => rfl⟩

/-- C8 counterexample: a wrong positional argument count goes through
optparse parser.error, which exits with status 2, not 1. -/
theorem c8_counterexample :
    exitCode (run 2 ⟨CliLevel.error, CliLevel.information⟩ [] []) = 2 := by
  decide

/-- C8 (amended): exit status 0 on success; 1 for a failed verdict, a stale
suppression entry, a missing reason, and an unknown severity; 2 for the two
optparse usage errors (wrong argument count, incompatible threshold
options). -/
theorem c8_exit_codes :
    (∀ lines : List String, exitCode (Except.ok (lines, true)) = 0) ∧
    (∀ lines : List String, exitCode (Except.ok (lines, false)) = 1) ∧
    (∀ (rid : Option String) (x : String),
      exitCode (Except.error (RunError.staleSuppression rid x)) = 1) ∧
    (∀ (rid : Option String) (x : String),
      exitCode (Except.error (RunError.reasonMissing rid x)) = 1) ∧
    (∀ s fp : String,
      exitCode (Except.error (RunError.unknownSeverity s fp)) = 1) ∧
    exitCode (Except.error RunError.argCountError) = 2 ∧
    exitCode (Except.error RunError.configError) = 2 ∧
    (∀ (n : Nat) (cfg : Config) (spec : IgnoredSpec) (report : List RawOutcome),
      n ≠ 1 →
      run n cfg spec report = .error .argCountError ∧
      exitCode (run n cfg spec report) = 2) := by
  refine ⟨fun _ => rfl, fun _ => rfl, fun _ _ => rfl, fun _ _ => rfl,
    fun _ _ => rfl, rfl, rfl, ?_⟩
  intro n cfg spec report hn
  have hrun : run n cfg spec report = .error .argCountError := by
    unfold run
    rw [if_pos hn]
  exact ⟨hrun, by rw [hrun]; rfl⟩

theorem c8_exit_codes_witness :
    run 2 ⟨CliLevel.error, CliLevel.information⟩ [] [] = .error .argCountError ∧
    exitCode (run 2 ⟨CliLevel.error, CliLevel.information⟩ [] []) = 2 :=
  c8_exit_codes.2.2.2.2.2.2.2 2 ⟨CliLevel.error, CliLevel.information⟩ [] []
    (by decide)

/-- C9: a configuration whose fail-at rank exceeds the verbosity rank is
rejected with the configuration error for every suppression specification
and every report (so before either file is consulted), and a configuration
with fail-at rank at most the verbosity rank never produces that error. -/
theorem c9_threshold_validation (cfg : Config) :
    (cfg.verbosity_level.rank < cfg.fail_at.rank →
      ∀ (spec : IgnoredSpec) (report : List RawOutcome),
        run 1 cfg spec report = .error .configError) ∧
    (cfg.fail_at.rank ≤ cfg.verbosity_level.rank →
      ∀ (spec : IgnoredSpec) (report : List RawOutcome),
        run 1 cfg spec report ≠ .error .configError) := by
  constructor
  · intro hlt spec report
    unfold run
    rw [if_neg (by simp)]
    rw [if_pos hlt]
  · intro hle spec report hcontra
    rw [run_unfold _ _ _ hle] at hcontra
    cases hpo : processOutcomes (initState spec) report with
    | error e =>
      rw [hpo] at hcontra
      simp only [Except.error.injEq] at hcontra
      have h4 := processOutcomes_err_not_usage (initState spec) report e hpo
      rw [hcontra] at h4
      exact absurd h4 (by simp [RunError.isUsage])
    | ok out =>
      obtain ⟨results, stF⟩ := out
      rw [hpo] at hcontra
      simp at hcontra

theorem c9_threshold_validation_witness :
    run 1 ⟨CliLevel.information, CliLevel.error⟩ [] [] = .error .configError ∧
    run 1 ⟨CliLevel.error, CliLevel.information⟩ [] [] ≠ .error .configError :=
  ⟨(c9_threshold_validation ⟨CliLevel.information, CliLevel.error⟩).1
     (by decide) [] [],
   (c9_threshold_validation ⟨CliLevel.error, CliLevel.information⟩).2
     (by decide) [] []⟩

/-- C10 counterexample: the message-less rule sits at expression e2, but
the sweep reports the unconsumed rule at e1 first and exits there: the run
does not end with the stale diagnostic for the message-less rule itself, as
the claim states. -/
theorem c10_counterexample :
    run 1 ⟨CliLevel.error, CliLevel.information⟩
      [(some "A",
        some [("e1", [⟨some "X", some "r"⟩]), ("e2", [⟨none, some "r"⟩])])]
      [⟨"f", some "A", []⟩] =
      .error (.staleSuppression (some "A") "e1") := by decide

/-- C10 (amended): a rule without a message key can never match any issue
and is never marked processed, so every run with valid options that loads
such a rule for a resource id occurring in the report exits with status 1;
the stale diagnostic that fires may name an earlier unconsumed entry rather
than the message-less rule itself. -/
theorem c10_no_message_rule_never_matches (cfg : Config) (spec : IgnoredSpec)
    (rid : Option String) (report : List RawOutcome)
    (hcfg : cfg.fail_at.rank ≤ cfg.verbosity_level.rank)
    (hload : loadsNoMsg spec rid)
    (hmem : ∃ o ∈ report, o.resource_id = rid) :
    exitCode (run 1 cfg spec report) = 1 ∧
    (∀ (t : String) (e : Entry), e.message = none →
      Entry.matchesText t e = false ∧ markEntry t e = e) := by
  refine ⟨?_, fun t e h => markEntry_noMsg t e h⟩
  rw [run_unfold _ _ _ hcfg]
  cases hpo : processOutcomes (initState spec) report with
  | error e =>
    have h4 := processOutcomes_err_not_usage (initState spec) report e hpo
    show exitCode (Except.error e) = 1
    exact exitCode_error_of_not_usage e h4
  | ok out =>
    obtain ⟨o, ho, hrid⟩ := hmem
    exact absurd hrid
      (processOutcomes_ok_not_rid rid report (initState spec) out
        (initState_loadsNoMsg spec rid hload) hpo o ho)

/-- Processed flags persist across outcome records that share a resource
id, because curr_ignored_issues aliases the shared ignored_issues dict: the
entry consumed by the first record satisfies the stale-entry sweep of the
second record, and the run succeeds. -/
theorem processed_flags_persist_across_records :
    run 1 ⟨CliLevel.error, CliLevel.information⟩
      [(some "A", some [("e", [⟨some "M", some "r"⟩])])]
      [⟨"f1", some "A", [⟨some "M text", none, none, "error", some "e"⟩]⟩,
       ⟨"f2", some "A", []⟩] =
      .ok (["All well"], true) := by decide

theorem c10_no_message_rule_never_matches_witness :
    exitCode (run 1 ⟨CliLevel.error, CliLevel.information⟩
      [(some "A", some [("e", [⟨none, some "r"⟩])])]
      [⟨"f", some "A", []⟩]) = 1 :=
  (c10_no_message_rule_never_matches ⟨CliLevel.error, CliLevel.information⟩
    [(some "A", some [("e", [⟨none, some "r"⟩])])] (some "A")
    [⟨"f", some "A", []⟩] (by decide)
    ⟨[("e", [⟨none, some "r"⟩])], rfl, by decide⟩ (by decide)).1

end AnalyzeResults
